import Mathlib

/-!
Shallow embedding of the `topt-rewrites` repository (Python, built on the
pytket circuit library) and proofs about its functions.

Circuits are modelled as lists of commands over explicit qubit/bit registers,
Pauli tensors as ordered qubit-to-letter maps with a rational coefficient, and
angles in half-turns as rationals.  Functions of the repository are translated
one-to-one from the Python source (each in a namespace named after its module);
the pytket/qiskit primitives they call are modelled in the `pytket_model`
namespace, with a doc comment stating the modelled semantics.  Python
exceptions become `Except`/`Option` results.
-/

namespace topt_rewrites

/-- Single-qubit Pauli letters, as in `pytket.pauli.Pauli`. -/
inductive Pauli where
  | I
  | X
  | Y
  | Z
deriving DecidableEq

/-- A unit identifier of a pytket circuit: a qubit or a classical bit,
given by its register name and index.  `Qubit(i)` of the default register is
`UnitID.qubit "q" i`. -/
inductive UnitID where
  | qubit (reg : String) (idx : Nat)
  | bit (reg : String) (idx : Nat)
deriving DecidableEq

/-- A gate parameter in half-turns: a concrete rational angle, or a symbolic
expression (sympy symbol), which only its name identifies. -/
inductive Param where
  | num (val : Rat)
  | symb (name : String)
deriving DecidableEq

/-- pytket `PhasePolyBox` data: qubit count, phase polynomial (a parity of
booleans mapped to a phase, as the ordered association list underlying the
Python dict) and the linear reversible transformation as a boolean matrix. -/
structure PPBox where
  n_qubits : Nat
  phase_polynomial : List (List Bool × Rat)
  linear_transformation : List (List Bool)
deriving DecidableEq

/-- Primitive gates occurring inside the `CircBox`es the repository builds
(the FSWAP box holds a CZ and a SWAP). -/
inductive PrimOp where
  | CZ
  | SWAP
deriving DecidableEq

/-- pytket `CircBox` data as the repository uses it: a named sub-circuit whose
body is a list of primitive gates on local qubit indices. -/
structure CBox where
  name : String
  n_qubits : Nat
  body : List (PrimOp × List Nat)
deriving DecidableEq

/-- Circuit operations, mirroring the pytket `OpType`s the repository touches.
`Conditional` wraps an operation with a classical condition (bit width and
value), `PhaseGadget ps θ` is the exponential `exp(-i π/2 θ P)` of the Pauli
string `ps` (angle in half-turns), produced by decomposing a
`PauliExpCommutingSetBox`. -/
inductive Op where
  | H
  | X
  | Y
  | Z
  | noop
  | T
  | CX
  | CZ
  | SWAP
  | Rz (p : Param)
  | Measure
  | Barrier
  | PhasePolyBox (pb : PPBox)
  | CircBox (cb : CBox)
  | Conditional (op : Op) (width : Nat) (value : Nat)
  | PauliExpCommutingSetBox (ops : List (List Pauli × Rat))
  | PhaseGadget (paulis : List Pauli) (angle : Rat)
deriving DecidableEq

/-- The pytket `OpType` of an operation. -/
inductive OpTy where
  | H
  | X
  | Y
  | Z
  | noop
  | T
  | CX
  | CZ
  | SWAP
  | Rz
  | Measure
  | Barrier
  | PhasePolyBox
  | CircBox
  | Conditional
  | PauliExpCommutingSetBox
  | PhaseGadget
deriving DecidableEq

/-- `op.type` of pytket: the `OpType` of an operation. -/
def Op.optype : Op → OpTy
  | .H => .H
  | .X => .X
  | .Y => .Y
  | .Z => .Z
  | .noop => .noop
  | .T => .T
  | .CX => .CX
  | .CZ => .CZ
  | .SWAP => .SWAP
  | .Rz _ => .Rz
  | .Measure => .Measure
  | .Barrier => .Barrier
  | .PhasePolyBox _ => .PhasePolyBox
  | .CircBox _ => .CircBox
  | .Conditional _ _ _ => .Conditional
  | .PauliExpCommutingSetBox _ => .PauliExpCommutingSetBox
  | .PhaseGadget _ _ => .PhaseGadget

/-- A command: an operation applied to a list of units (for a `Conditional`
operation the condition bits come first, as in pytket). -/
structure Command where
  op : Op
  args : List UnitID
deriving DecidableEq

/-- A pytket circuit: its qubits, its classical bits, and its commands in
order. -/
structure Circuit where
  qubits : List UnitID
  bits : List UnitID
  cmds : List Command
deriving DecidableEq

def UnitID.isQubit : UnitID → Bool
  | .qubit _ _ => true
  | .bit _ _ => false

/-- `cmd.qubits` of pytket: the qubit arguments of a command. -/
def Command.qubits (cmd : Command) : List UnitID :=
  cmd.args.filter UnitID.isQubit

/-- The qubits `q[0], ..., q[n-1]` of the default register. -/
def defaultQubits (n : Nat) : List UnitID :=
  (List.range n).map (UnitID.qubit "q")

/-- The qubits of a named register of the given size. -/
def regQubits (name : String) (size : Nat) : List UnitID :=
  (List.range size).map (UnitID.qubit name)

/-- The bits of a named classical register of the given size. -/
def regBits (name : String) (size : Nat) : List UnitID :=
  (List.range size).map (UnitID.bit name)

/-- pytket `Circuit(n)`: `n` default-register qubits, no bits, no commands. -/
def Circuit.init (n : Nat) : Circuit :=
  ⟨defaultQubits n, [], []⟩

def Circuit.n_qubits (c : Circuit) : Nat :=
  c.qubits.length

/-- pytket `Circuit.add_gate`: append a command. -/
def Circuit.add_gate (c : Circuit) (op : Op) (args : List UnitID) : Circuit :=
  { c with cmds := c.cmds ++ [⟨op, args⟩] }

/-- Whether a unit belongs to the circuit: a qubit among its qubits, a bit
among its bits.  pytket raises `CircuitInvalidity` when a gate is added on a
unit the circuit does not hold. -/
def Circuit.contains_unit (c : Circuit) (u : UnitID) : Bool :=
  if u.isQubit then c.qubits.contains u else c.bits.contains u

/-- Whether every argument is a unit of the circuit. -/
def Circuit.contains_units (c : Circuit) (args : List UnitID) : Bool :=
  args.all c.contains_unit

/-- pytket `Circuit.add_barrier`: append a barrier over the given units. -/
def Circuit.add_barrier (c : Circuit) (units : List UnitID) : Circuit :=
  { c with cmds := c.cmds ++ [⟨Op.Barrier, units⟩] }

/-- pytket `Circuit.add_q_register`: append a fresh qubit register and return
it. -/
def Circuit.add_q_register (c : Circuit) (name : String) (size : Nat) :
    Circuit × List UnitID :=
  ({ c with qubits := c.qubits ++ regQubits name size }, regQubits name size)

/-- pytket `Circuit.add_c_register`: append a fresh bit register and return
it. -/
def Circuit.add_c_register (c : Circuit) (name : String) (size : Nat) :
    Circuit × List UnitID :=
  ({ c with bits := c.bits ++ regBits name size }, regBits name size)

/-- pytket `Circuit.n_gates_of_type`. -/
def Circuit.n_gates_of_type (c : Circuit) (ty : OpTy) : Nat :=
  (c.cmds.filter (fun cmd => cmd.op.optype == ty)).length

/-- pytket `Circuit.ops_of_type`. -/
def Circuit.ops_of_type (c : Circuit) (ty : OpTy) : List Op :=
  (c.cmds.filter (fun cmd => cmd.op.optype == ty)).map Command.op

/-- Whether an operation carries a symbolic parameter (looking through
conditionals, as pytket's free-symbol collection does). -/
def Op.hasSymbol : Op → Bool
  | .Rz (.symb _) => true
  | .Conditional op _ _ => op.hasSymbol
  | _ => false

/-- Model of pytket `NoSymbolsPredicate().verify`: no command of the circuit
carries a symbolic parameter. -/
def noSymbols (c : Circuit) : Bool :=
  c.cmds.all (fun cmd => !cmd.op.hasSymbol)

/-- A rational is a half-integer (an integer multiple of `1/2`): its reduced
denominator is 1 or 2. -/
def isHalfInteger (q : Rat) : Bool :=
  q.den == 1 || q.den == 2

/-- Model of pytket `Op.is_clifford` for an `Rz` gate: a numeric angle that is
an integer multiple of a half turn; `false` for a symbolic angle. -/
def rz_is_clifford : Param → Bool
  | .num q => isHalfInteger q
  | .symb _ => false

/-- Python `x % 2` on a rational (the representative in `[0, 2)`). -/
def qmod2 (x : Rat) : Rat :=
  x - 2 * ⌊x / 2⌋

/-- Model of pytket `CliffordCircuitPredicate` at the level of single
operations: the operation's unitary normalises the Pauli group.  A phase
gadget or phase-polynomial term is Clifford exactly when its angle is a
half-integer number of half-turns (or its Pauli string trivial); measurements,
barriers and conditionals are not Clifford gates. -/
def Op.is_clifford : Op → Bool
  | .H => true
  | .X => true
  | .Y => true
  | .Z => true
  | .noop => true
  | .T => false
  | .CX => true
  | .CZ => true
  | .SWAP => true
  | .Rz p => rz_is_clifford p
  | .Measure => false
  | .Barrier => false
  | .PhasePolyBox pb => pb.phase_polynomial.all (fun pr => isHalfInteger pr.2)
  | .CircBox _ => true
  | .Conditional _ _ _ => false
  | .PauliExpCommutingSetBox ops =>
      ops.all (fun pr => pr.1.all (· == Pauli.I) || isHalfInteger pr.2)
  | .PhaseGadget ps θ => ps.all (· == Pauli.I) || isHalfInteger θ

/-- A circuit is Clifford when each of its gates is. -/
def isCliffordCircuit (c : Circuit) : Bool :=
  c.cmds.all (fun cmd => cmd.op.is_clifford)

namespace utils

/-- The allowed non-Clifford `Rz` angles of `utils.check_rz_angles`
(half-turns): `[0.25, 0.75, 1.25, 1.75]`. -/
def allowed_non_clifford_angles : List Rat :=
  [1/4, 3/4, 5/4, 7/4]

/-- The body of the loop of `check_rz_angles` for one `Rz` operation: the
operation passes when it is Clifford or its absolute angle modulo 2 is in the
allowed list (a symbolic angle, never reached after the symbol check, passes
neither test). -/
def rz_op_passes : Param → Bool
  | .num q => rz_is_clifford (.num q) || decide (qmod2 |q| ∈ allowed_non_clifford_angles)
  | .symb _ => false

/-- Translation of `utils.check_rz_angles` (also `main.check_rz_angles`):
check that all `Rz` gates in a circuit can be implemented with Clifford+T
gates; raising `ValueError` becomes `Except.error`. -/
def check_rz_angles (circ : Circuit) : Except String Bool :=
  if !noSymbols circ then
    .error "Circuit contains symbolic angles."
  else if circ.n_gates_of_type OpTy.Rz == 0 then
    .error "Circuit does not contain any Rz gates."
  else
    let rz_op_list := circ.ops_of_type OpTy.Rz
    .ok (rz_op_list.all (fun op =>
      match op with
      | .Rz p => rz_op_passes p
      | _ => true))

/-- Translation of `utils._is_conditional_pauli_x`. -/
def _is_conditional_pauli_x (operation : Op) : Bool :=
  match operation with
  | .Conditional op _ _ => op.optype == OpTy.X
  | _ => false

/-- Translation of `utils.get_n_conditional_paulis` (also
`main.get_n_conditional_paulis`): the number of conditional-X gates. -/
def get_n_conditional_paulis (circ : Circuit) : Nat :=
  ((circ.ops_of_type OpTy.Conditional).filter _is_conditional_pauli_x).length

/-- Translation of `utils.initialise_registers` (also
`main._initialise_registers`): a fresh circuit with the same qubits and
bits. -/
def initialise_registers (circ : Circuit) : Circuit :=
  ⟨circ.qubits, circ.bits, []⟩

/-- Translation of `utils.reverse_circuit` (also `main._reverse_circuit`):
replay the commands in reverse order; a barrier is re-added over its qubit
arguments only (`cmd.qubits`), any other command over all its arguments. -/
def reverse_circuit (circ : Circuit) : Circuit :=
  circ.cmds.reverse.foldl
    (fun new_circ cmd =>
      if cmd.op.optype == OpTy.Barrier then new_circ.add_barrier cmd.qubits
      else new_circ.add_gate cmd.op cmd.args)
    (initialise_registers circ)

end utils

namespace gadgetisation

/-- Translation of `gadgetisation.FSWAP_CIRC`: `Circuit(2, name="FSWAP").CZ(0, 1).SWAP(0, 1)`. -/
def FSWAP_CIRC : CBox :=
  ⟨"FSWAP", 2, [(PrimOp.CZ, [0, 1]), (PrimOp.SWAP, [0, 1])]⟩

/-- Translation of `gadgetisation.FSWAP`: the FSWAP circuit as a `CircBox`. -/
def FSWAP : Op :=
  Op.CircBox FSWAP_CIRC

/-- Model of `HADAMARD_REPLACE_PREDICATE.verify`, the
`GateSetPredicate({OpType.H, OpType.PhasePolyBox})` of `gadgetisation.py`:
every command's operation type lies in the allowed set. -/
def HADAMARD_REPLACE_PREDICATE (circ : Circuit) : Bool :=
  circ.cmds.all (fun cmd =>
    cmd.op.optype == OpTy.H || cmd.op.optype == OpTy.PhasePolyBox)

/-- Translation of `gadgetisation._count_hadamards`: count Hadamards until a
`PhasePolyBox` is met (`break`); the fold state is (stopped, count). -/
def _count_hadamards (commands : List Command) : Nat :=
  (commands.foldl
    (fun acc cmd =>
      if acc.1 then acc
      else if cmd.op.optype == OpTy.H then (acc.1, acc.2 + 1)
      else if cmd.op.optype == OpTy.PhasePolyBox then (true, acc.2)
      else acc)
    (false, 0)).2

/-- Translation of `gadgetisation.get_n_internal_hadamards`: the number of
Hadamard gates between the first and last `PhasePolyBox`, or `ValueError`
when the circuit leaves the `{H, PhasePolyBox}` gate set. -/
def get_n_internal_hadamards (circ : Circuit) : Except String Int :=
  if !HADAMARD_REPLACE_PREDICATE circ then
    .error "Circuit must contain only OpType.H and OpType.PhasePolyBox OpTypes."
  else
    let total_h_count : Int := circ.n_gates_of_type OpTy.H
    let lhs_count : Int := _count_hadamards circ.cmds
    let rhs_count : Int := _count_hadamards circ.cmds.reverse
    .ok (total_h_count - (lhs_count + rhs_count))

/-- The loop body of `gadgetise_hadamards`: a non-Hadamard command is copied;
a Hadamard is replaced by the FSWAP gadget on its qubit and the next ancilla.
Indexing `z_ancillas[ancilla_index]` past the register's size is pytket's
`IndexError`, and adding a gate on a unit the rebuilt circuit does not hold
(the input's own units must lie in the fresh default-register circuit; the
ancilla and bit just created are its units by construction) is pytket's
`CircuitInvalidity`; both are modelled by `none`. -/
def gadget_step (z_ancillas ancilla_bits : List UnitID)
    (acc : Option (Circuit × Nat)) (cmd : Command) : Option (Circuit × Nat) :=
  match acc with
  | none => none
  | some (circ_prime, ancilla_index) =>
    if cmd.op.optype != OpTy.H then
      if circ_prime.contains_units cmd.args then
        some (circ_prime.add_gate cmd.op cmd.args, ancilla_index)
      else none
    else
      match cmd.qubits.head?, z_ancillas.get? ancilla_index,
          ancilla_bits.get? ancilla_index with
      | some q, some anc, some ancb =>
          if circ_prime.contains_unit q then
            some ((((circ_prime.add_gate FSWAP [q, anc]).add_gate
              Op.Measure [anc, ancb]).add_gate
              (Op.Conditional Op.X 1 1) [ancb, q]), ancilla_index + 1)
          else none
      | _, _, _ => none

/-- Translation of `gadgetisation.gadgetise_hadamards`: replace all Hadamard
gates with measurement gadgets.  A raised exception (gate-set failure from
`get_n_internal_hadamards`, a negative register size, or ancilla indexing out
of range) is `none`. -/
def gadgetise_hadamards (circ : Circuit) : Option Circuit :=
  match get_n_internal_hadamards circ with
  | .error _ => none
  | .ok internal_h_count =>
    if internal_h_count < 0 then none
    else
      let k := internal_h_count.toNat
      let r1 := (Circuit.init circ.n_qubits).add_q_register "z_ancillas" k
      let z_ancillas := r1.2
      let r2 := r1.1.add_c_register "bits" k
      let ancilla_bits := r2.2
      let c2 := z_ancillas.foldl (fun c anc => c.add_gate Op.H [anc]) r2.1
      let c3 := c2.add_barrier z_ancillas
      (circ.cmds.foldl (gadget_step z_ancillas ancilla_bits) (some (c3, 0))).map
        Prod.fst

end gadgetisation

/-- A multi-qubit Pauli operator: an ordered map from (default-register) qubit
indices to Pauli letters, with a scalar coefficient, as
`pytket.pauli.QubitPauliTensor` (identity entries are stored as given). -/
structure QubitPauliTensor where
  string : List (Nat × Pauli)
  coeff : Rat
deriving DecidableEq

/-- The Pauli letter a tensor holds at a qubit (identity when absent). -/
def QubitPauliTensor.get (t : QubitPauliTensor) (q : Nat) : Pauli :=
  (t.string.lookup q).getD Pauli.I

/-- Two Pauli letters anticommute when both are non-identity and distinct. -/
def Pauli.anticommutes (p1 p2 : Pauli) : Bool :=
  p1 != Pauli.I && p2 != Pauli.I && p1 != p2

/-- pytket `QubitPauliTensor.commutes_with`: two Pauli tensors commute when an
even number of their qubit-wise letters anticommute. -/
def QubitPauliTensor.commutes_with (t1 t2 : QubitPauliTensor) : Bool :=
  ((t1.string.map (fun qp =>
    if Pauli.anticommutes qp.2 (t2.get qp.1) then 1 else 0)).sum % 2 == 0 : Bool)

namespace pytket_model

/-- Entry `j` of a boolean row, `false` out of range. -/
def getEntry (r : List Bool) (j : Nat) : Bool :=
  r.getD j false

/-- Sum of two rows over `F2`. -/
def xorRows (r1 r2 : List Bool) : List Bool :=
  List.zipWith Bool.xor r1 r2

/-- Inner product of two boolean vectors over `F2`. -/
def dotF2 (r x : List Bool) : Bool :=
  (List.zipWith Bool.and r x).foldl Bool.xor false

/-- Matrix-vector product over `F2` (rows of `m` against `x`). -/
def matVec (m : List (List Bool)) (x : List Bool) : List Bool :=
  m.map (fun row => dotF2 row x)

/-- Row-vector times matrix over `F2`: component `j` is the parity of
`p · (column j of m)`. -/
def vecMatMul (p : List Bool) (m : List (List Bool)) : List Bool :=
  (List.range p.length).map (fun j =>
    (List.zipWith Bool.and p (m.map (fun r => getEntry r j))).foldl Bool.xor false)

/-- Transpose of an `n`-column boolean matrix. -/
def matTranspose (n : Nat) (m : List (List Bool)) : List (List Bool) :=
  (List.range n).map (fun j => m.map (fun r => getEntry r j))

/-- Row `i` of the `n` by `n` identity matrix. -/
def basisRow (n i : Nat) : List Bool :=
  (List.range n).map (fun j => j == i)

/-- Find the first augmented row whose left half has a `true` in column `j`,
returning it and the remaining rows. -/
def findPivot (j : Nat) :
    List (List Bool × List Bool) →
      Option ((List Bool × List Bool) × List (List Bool × List Bool))
  | [] => none
  | r :: rs =>
    if getEntry r.1 j then some (r, rs)
    else
      match findPivot j rs with
      | none => none
      | some (p, rest) => some (p, r :: rest)

/-- Gauss-Jordan elimination over `F2` on augmented rows, one column at a
time; `done` collects the pivot rows in column order. -/
def gjCols : List Nat → List (List Bool × List Bool) →
    List (List Bool × List Bool) → List (List Bool × List Bool)
  | [], done, _ => done
  | j :: js, done, todo =>
    match findPivot j todo with
    | none => gjCols js done todo
    | some (p, todo2) =>
      let clr := fun (r : List Bool × List Bool) =>
        if getEntry r.1 j then (xorRows r.1 p.1, xorRows r.2 p.2) else r
      gjCols js (done.map clr ++ [p]) (todo2.map clr)

/-- Inverse of an invertible boolean matrix over `F2`, by Gauss-Jordan
elimination against the identity. -/
def gaussInv (m : List (List Bool)) : List (List Bool) :=
  let n := m.length
  (gjCols (List.range n) []
    (m.enum.map (fun pr => (pr.2, basisRow n pr.1)))).map Prod.snd

/-- Whether a Pauli letter has an `X` component (writing `Y = i·X·Z`). -/
def Pauli.xPart : Pauli → Bool
  | .X => true
  | .Y => true
  | _ => false

/-- Whether a Pauli letter has a `Z` component. -/
def Pauli.zPart : Pauli → Bool
  | .Z => true
  | .Y => true
  | _ => false

/-- The Pauli letter with the given `X` and `Z` components. -/
def pauliOfXZ : Bool → Bool → Pauli
  | false, false => .I
  | true, false => .X
  | true, true => .Y
  | false, true => .Z

/-- The number of `Y` letters in a Pauli string. -/
def countY (ps : List Pauli) : Nat :=
  (ps.filter (· == Pauli.Y)).length

/-- The real value of `i^d` for even `d` (`0` as a junk value for odd `d`,
which conjugation by a real CNOT circuit never produces). -/
def iPowReal (d : Int) : Rat :=
  if d % 4 == 0 then 1 else if d % 4 == 2 || d % 4 == -2 then -1 else 0

/-- Model of `UnitaryTableau.get_row_product` for the tableau of the CNOT
circuit realising an invertible boolean matrix `lin` (as
`_get_reversible_tableau` builds it via qiskit synthesis and endianness
correction): conjugation `P ↦ L P L†`.  On `X^x Z^z` vectors the CNOT circuit
acts by `x ↦ lin·x` and `z ↦ lin⁻ᵀ·z` with no sign, so on Pauli letters the
coefficient picks up `i^(#Y_in - #Y_out)` from rewriting `Y = i·X·Z`. -/
def get_row_product (lin : List (List Bool)) (t : QubitPauliTensor) :
    QubitPauliTensor :=
  let n := lin.length
  let xv := (List.range n).map (fun i => Pauli.xPart (t.get i))
  let zv := (List.range n).map (fun i => Pauli.zPart (t.get i))
  let xv2 := matVec lin xv
  let zv2 := matVec (matTranspose n (gaussInv lin)) zv
  let letters := (List.range n).map (fun i =>
    pauliOfXZ (getEntry xv2 i) (getEntry zv2 i))
  let yIn : Int := countY ((List.range n).map (fun i => t.get i))
  let yOut : Int := countY letters
  ⟨(List.range n).zip letters, t.coeff * iPowReal (yIn - yOut)⟩

/-- Model of pytket `DecomposeBoxes` restricted to the circuits the repository
decomposes: a `PauliExpCommutingSetBox` command is the product of its
commuting Pauli exponentials and is replaced by one phase-gadget command per
term, in sequence, on the same arguments; other commands are kept. -/
def decompose_boxes (c : Circuit) : Circuit :=
  { c with
    cmds := (c.cmds.map (fun cmd =>
      match cmd.op with
      | Op.PauliExpCommutingSetBox ops =>
          ops.map (fun pr => (⟨Op.PhaseGadget pr.1 pr.2, cmd.args⟩ : Command))
      | _ => [cmd])).flatten }

end pytket_model

namespace clifford

/-- Translation of `clifford.PAULI_DICT`. -/
def PAULI_DICT : Pauli → Op
  | .I => Op.noop
  | .X => Op.X
  | .Y => Op.Y
  | .Z => Op.Z

/-- Translation of `clifford.pauli_tensor_to_circuit`: a circuit of
single-qubit Pauli operations from a tensor (on
`len(pauli_tensor.string.to_list())` qubits, one gate per stored entry). -/
def pauli_tensor_to_circuit (pauli_tensor : QubitPauliTensor) : Circuit :=
  pauli_tensor.string.foldl
    (fun pauli_circ qp => pauli_circ.add_gate (PAULI_DICT qp.2) [UnitID.qubit "q" qp.1])
    (Circuit.init pauli_tensor.string.length)

/-- Model of `clifford._get_reversible_tableau`: the qiskit CNOT synthesis,
endianness reversal and conversion produce the tableau of the CNOT circuit
realising `pbox.linear_transformation`, which `pytket_model.get_row_product`
consumes as that boolean matrix. -/
def _get_reversible_tableau (pbox : PPBox) : List (List Bool) :=
  pbox.linear_transformation

/-- Translation of `clifford._parities_to_pauli_tensors`: each parity/phase
pair of the phase polynomial becomes a `Z`/`I` tensor over `Qubit(0..)` with
the phase as coefficient. -/
def _parities_to_pauli_tensors (pbox : PPBox) : List QubitPauliTensor :=
  pbox.phase_polynomial.map (fun pr =>
    ⟨pr.1.enum.map (fun ib => (ib.1, if ib.2 then Pauli.Z else Pauli.I)), pr.2⟩)

/-- Translation of `clifford._get_updated_paulis`: keep only the tensors that
do not commute with `new_pauli`, with coefficient multiplied by `-1`. -/
def _get_updated_paulis (pauli_tensors : List QubitPauliTensor)
    (new_pauli : QubitPauliTensor) : List QubitPauliTensor :=
  (pauli_tensors.filter (fun pauli_op => !pauli_op.commutes_with new_pauli)).map
    (fun pauli_op => ⟨pauli_op.string, pauli_op.coeff * (-1)⟩)

/-- Translation of `clifford._get_phase_gadget_circuit`: build a
`PauliExpCommutingSetBox` from the tensors' strings and (real) coefficients,
place it on a fresh circuit and decompose it. -/
def _get_phase_gadget_circuit (pauli_tensors : List QubitPauliTensor) : Circuit :=
  let pauli_ops := pauli_tensors.map (fun tensor =>
    (tensor.string.map Prod.snd, tensor.coeff))
  let n_qubits := (pauli_ops.headD ([], 0)).1.length
  pytket_model.decompose_boxes
    ((Circuit.init n_qubits).add_gate (Op.PauliExpCommutingSetBox pauli_ops)
      (defaultQubits n_qubits))

/-- Translation of `clifford.get_pauli_conjugate`: `P' = L P L†` through the
tableau of the reversible part. -/
def get_pauli_conjugate (pbox : PPBox) (input_pauli : QubitPauliTensor) :
    QubitPauliTensor :=
  pytket_model.get_row_product (_get_reversible_tableau pbox) input_pauli

/-- Model of `clifford._get_daggered_phasepolybox`: daggering the box's
circuit and recomposing gives the `PhasePolyBox` of `U†`, whose phase
polynomial carries each parity composed with `L⁻¹` (the gadgets move past the
inverted linear part) and the negated phase, over the inverted linear
transformation. -/
def _get_daggered_phasepolybox (pbox : PPBox) : PPBox :=
  ⟨pbox.n_qubits,
   pbox.phase_polynomial.map (fun pr =>
     (pytket_model.vecMatMul pr.1
       (pytket_model.gaussInv pbox.linear_transformation), -pr.2)),
   pytket_model.gaussInv pbox.linear_transformation⟩

/-- Model of `Circuit.add_circuit` as `synthesise_clifford` calls it: the
appended circuit's default-register qubits coincide with the target's, so its
commands are appended unchanged. -/
def add_circuit (c other : Circuit) : Circuit :=
  { c with cmds := c.cmds ++ other.cmds }

/-- Translation of `clifford.synthesise_clifford`: the circuit for the
end-of-circuit operator `C`, composing the Pauli circuit for `P'` with the
phase-gadget circuit for `Q = S' · S†`. -/
def synthesise_clifford (pbox : PPBox) (input_pauli : QubitPauliTensor) :
    Circuit :=
  let new_pauli := get_pauli_conjugate pbox input_pauli
  let result_circ := pauli_tensor_to_circuit new_pauli
  let s_sequence := _parities_to_pauli_tensors pbox
  let s_prime_sequence := _get_updated_paulis s_sequence new_pauli
  let u_dg_box := _get_daggered_phasepolybox pbox
  let s_dg_sequence := _parities_to_pauli_tensors u_dg_box
  let q_operator_list := s_prime_sequence ++ s_dg_sequence
  let q_operator_circ := _get_phase_gadget_circuit q_operator_list
  add_circuit result_circ q_operator_circ

end clifford

namespace main

/-- Translation of `main.FSWAP_CIRC` (same text as `gadgetisation.FSWAP_CIRC`). -/
def FSWAP_CIRC : CBox :=
  ⟨"FSWAP", 2, [(PrimOp.CZ, [0, 1]), (PrimOp.SWAP, [0, 1])]⟩

/-- Translation of `main.FSWAP`. -/
def FSWAP : Op :=
  Op.CircBox FSWAP_CIRC

/-- Model of `main.HADAMARD_REPLACE_PREDICATE.verify` (same text as in
`gadgetisation.py`). -/
def HADAMARD_REPLACE_PREDICATE (circ : Circuit) : Bool :=
  circ.cmds.all (fun cmd =>
    cmd.op.optype == OpTy.H || cmd.op.optype == OpTy.PhasePolyBox)

/-- Translation of `main._count_hadamards` (same text as in
`gadgetisation.py`). -/
def _count_hadamards (commands : List Command) : Nat :=
  (commands.foldl
    (fun acc cmd =>
      if acc.1 then acc
      else if cmd.op.optype == OpTy.H then (acc.1, acc.2 + 1)
      else if cmd.op.optype == OpTy.PhasePolyBox then (true, acc.2)
      else acc)
    (false, 0)).2

/-- Translation of `main.get_n_internal_hadamards` (same text as in
`gadgetisation.py`). -/
def get_n_internal_hadamards (circ : Circuit) : Except String Int :=
  if !HADAMARD_REPLACE_PREDICATE circ then
    .error "Circuit must contain only OpType.H and OpType.PhasePolyBox OpTypes."
  else
    let total_h_count : Int := circ.n_gates_of_type OpTy.H
    let lhs_count : Int := _count_hadamards circ.cmds
    let rhs_count : Int := _count_hadamards circ.cmds.reverse
    .ok (total_h_count - (lhs_count + rhs_count))

/-- The loop body of `main.gadgetise_hadamards` (same text as in
`gadgetisation.py`, with the same `IndexError` and `CircuitInvalidity`
modelling). -/
def gadget_step (z_ancillas ancilla_bits : List UnitID)
    (acc : Option (Circuit × Nat)) (cmd : Command) : Option (Circuit × Nat) :=
  match acc with
  | none => none
  | some (circ_prime, ancilla_index) =>
    if cmd.op.optype != OpTy.H then
      if circ_prime.contains_units cmd.args then
        some (circ_prime.add_gate cmd.op cmd.args, ancilla_index)
      else none
    else
      match cmd.qubits.head?, z_ancillas.get? ancilla_index,
          ancilla_bits.get? ancilla_index with
      | some q, some anc, some ancb =>
          if circ_prime.contains_unit q then
            some ((((circ_prime.add_gate FSWAP [q, anc]).add_gate
              Op.Measure [anc, ancb]).add_gate
              (Op.Conditional Op.X 1 1) [ancb, q]), ancilla_index + 1)
          else none
      | _, _, _ => none

/-- Translation of `main.gadgetise_hadamards` (same text as in
`gadgetisation.py`). -/
def gadgetise_hadamards (circ : Circuit) : Option Circuit :=
  match get_n_internal_hadamards circ with
  | .error _ => none
  | .ok internal_h_count =>
    if internal_h_count < 0 then none
    else
      let k := internal_h_count.toNat
      let r1 := (Circuit.init circ.n_qubits).add_q_register "z_ancillas" k
      let z_ancillas := r1.2
      let r2 := r1.1.add_c_register "bits" k
      let ancilla_bits := r2.2
      let c2 := z_ancillas.foldl (fun c anc => c.add_gate Op.H [anc]) r2.1
      let c3 := c2.add_barrier z_ancillas
      (circ.cmds.foldl (gadget_step z_ancillas ancilla_bits) (some (c3, 0))).map
        Prod.fst

/-- Translation of `main.PAULI_DICT` (same text as `clifford.PAULI_DICT`). -/
def PAULI_DICT : Pauli → Op
  | .I => Op.noop
  | .X => Op.X
  | .Y => Op.Y
  | .Z => Op.Z

/-- Model of `main._get_reversible_tableau` (same text as in `clifford.py`). -/
def _get_reversible_tableau (pbox : PPBox) : List (List Bool) :=
  pbox.linear_transformation

/-- Translation of `main._parities_to_pauli_tensors` (same text as in
`clifford.py`). -/
def _parities_to_pauli_tensors (pbox : PPBox) : List QubitPauliTensor :=
  pbox.phase_polynomial.map (fun pr =>
    ⟨pr.1.enum.map (fun ib => (ib.1, if ib.2 then Pauli.Z else Pauli.I)), pr.2⟩)

/-- Translation of `main._get_updated_paulis`: the coefficient of each tensor
that does not commute with `new_pauli` is multiplied by 2 in place, and the
whole input list is returned. -/
def _get_updated_paulis (pauli_tensors : List QubitPauliTensor)
    (new_pauli : QubitPauliTensor) : List QubitPauliTensor :=
  pauli_tensors.map (fun pauli_op =>
    if !pauli_op.commutes_with new_pauli then
      ⟨pauli_op.string, pauli_op.coeff * 2⟩
    else pauli_op)

/-- Translation of `main._get_phase_gadget_circuit` (same text as in
`clifford.py`). -/
def _get_phase_gadget_circuit (pauli_tensors : List QubitPauliTensor) : Circuit :=
  let pauli_ops := pauli_tensors.map (fun tensor =>
    (tensor.string.map Prod.snd, tensor.coeff))
  let n_qubits := (pauli_ops.headD ([], 0)).1.length
  pytket_model.decompose_boxes
    ((Circuit.init n_qubits).add_gate (Op.PauliExpCommutingSetBox pauli_ops)
      (defaultQubits n_qubits))

/-- Translation of `main._get_circuit_fragments`: the Pauli circuit for
`P' = L P L†` and the phase-gadget circuit for the updated sequence `S'`. -/
def _get_circuit_fragments (pbox : PPBox) (input_pauli : QubitPauliTensor) :
    Circuit × Circuit :=
  let l_tableau := _get_reversible_tableau pbox
  let new_pauli := pytket_model.get_row_product l_tableau input_pauli
  let pauli_prime_circ := new_pauli.string.foldl
    (fun c qp => c.add_gate (PAULI_DICT qp.2) [UnitID.qubit "q" qp.1])
    (Circuit.init pbox.n_qubits)
  let pauli_tensors := _parities_to_pauli_tensors pbox
  let s_prime := _get_updated_paulis pauli_tensors new_pauli
  let s_prime_circ := _get_phase_gadget_circuit s_prime
  (pauli_prime_circ, s_prime_circ)

end main

/-! Claim-side descriptions and concrete inputs used by the theorems below. -/

/-- The number of Hadamard commands of a command list. -/
def countH (cmds : List Command) : Nat :=
  (cmds.filter (fun cmd => cmd.op.optype == OpTy.H)).length

/-- The number of conditional-X commands of a command list (what
`get_n_conditional_paulis` counts). -/
def countCondX (cmds : List Command) : Nat :=
  (((cmds.filter (fun cmd => cmd.op.optype == OpTy.Conditional)).map
    Command.op).filter utils._is_conditional_pauli_x).length

/-- The measurement gadget the spec describes for the `j`-th Hadamard of the
input, acting on its qubit `q`: an FSWAP box on `q` and the fresh ancilla
`z_ancillas[j]`, a measurement of that ancilla into the fresh bit `bits[j]`,
and an X on `q` conditioned on that bit having value 1. -/
def measurement_gadget (q : UnitID) (j : Nat) : List Command :=
  [⟨gadgetisation.FSWAP, [q, UnitID.qubit "z_ancillas" j]⟩,
   ⟨Op.Measure, [UnitID.qubit "z_ancillas" j, UnitID.bit "bits" j]⟩,
   ⟨Op.Conditional Op.X 1 1, [UnitID.bit "bits" j, q]⟩]

/-- Claim-side description of the gadgetised command sequence: counting
Hadamards from `j` on, every Hadamard command is replaced by its measurement
gadget and every non-Hadamard command is kept unchanged. -/
def replace_hadamards_spec (j : Nat) : List Command → List Command
  | [] => []
  | cmd :: rest =>
    if cmd.op.optype == OpTy.H then
      measurement_gadget (cmd.qubits.headD (UnitID.qubit "q" 0)) j ++
        replace_hadamards_spec (j + 1) rest
    else cmd :: replace_hadamards_spec j rest

/-- The ancilla-preparation prefix `gadgetise_hadamards` emits before the
replaced commands: a Hadamard on each of the `k` fresh ancillas and a barrier
across them. -/
def ancilla_preamble (k : Nat) : List Command :=
  (regQubits "z_ancillas" k).map (fun a => ⟨Op.H, [a]⟩) ++
    [⟨Op.Barrier, regQubits "z_ancillas" k⟩]

/-- The command `reverse_circuit` re-emits for a given input command: a
barrier is re-added over its qubit arguments only, any other command is
replayed unchanged. -/
def reverse_norm (cmd : Command) : Command :=
  if cmd.op.optype == OpTy.Barrier then ⟨Op.Barrier, cmd.qubits⟩ else cmd

/-- A `PhasePolyBox` holding a single T gate: one parity with phase `1/4`,
identity linear part. -/
def exPPBoxT : PPBox :=
  ⟨1, [([true], mkRat 1 4)], [[true]]⟩

/-- A two-qubit `PhasePolyBox` with one non-Clifford parity `Z⊗I` of phase
`1/4` and identity linear part (a T gate on qubit 0). -/
def exPPBoxT2 : PPBox :=
  ⟨2, [([true, false], mkRat 1 4)], [[true, false], [false, true]]⟩

/-- A `PhasePolyBox` holding a single S gate: one parity with the Clifford
phase `1/2`, identity linear part. -/
def exPPBoxS : PPBox :=
  ⟨1, [([true], mkRat 1 2)], [[true]]⟩

/-- The Pauli tensor `Z` on qubit 0. -/
def exTensorZ0 : QubitPauliTensor :=
  ⟨[(0, Pauli.Z)], 1⟩

/-- The Pauli tensor `I ⊗ X` on qubits 0 and 1. -/
def exTensorX1 : QubitPauliTensor :=
  ⟨[(0, Pauli.I), (1, Pauli.X)], 1⟩

/-- The Pauli tensor `X` on qubit 0. -/
def exTensorX0 : QubitPauliTensor :=
  ⟨[(0, Pauli.X)], 1⟩

def exQ0 : UnitID :=
  UnitID.qubit "q" 0

def exQ1 : UnitID :=
  UnitID.qubit "q" 1

def exB0 : UnitID :=
  UnitID.bit "c" 0

/-- A gateset circuit whose Hadamard precedes the first `PhasePolyBox`. -/
def exCircHPP : Circuit :=
  ⟨defaultQubits 1, [], [⟨Op.H, [exQ0]⟩, ⟨Op.PhasePolyBox exPPBoxT, [exQ0]⟩]⟩

/-- A gateset circuit with one internal Hadamard between two boxes. -/
def exCircInternal : Circuit :=
  ⟨defaultQubits 1, [],
   [⟨Op.PhasePolyBox exPPBoxT, [exQ0]⟩, ⟨Op.H, [exQ0]⟩,
    ⟨Op.PhasePolyBox exPPBoxT, [exQ0]⟩]⟩

/-- A two-qubit gateset circuit with two internal Hadamards. -/
def exCircInternal2 : Circuit :=
  ⟨defaultQubits 2, [],
   [⟨Op.PhasePolyBox exPPBoxT2, [exQ0, exQ1]⟩, ⟨Op.H, [exQ0]⟩,
    ⟨Op.H, [exQ1]⟩, ⟨Op.PhasePolyBox exPPBoxT2, [exQ0, exQ1]⟩]⟩

/-- A circuit holding a single Hadamard and no `PhasePolyBox`. -/
def exCircH : Circuit :=
  ⟨defaultQubits 1, [], [⟨Op.H, [exQ0]⟩]⟩

/-- A valid gateset circuit with one strictly internal Hadamard whose qubit
lives in a non-default register `foo`: re-adding its commands to the rebuilt
default-register circuit raises `CircuitInvalidity` in pytket. -/
def exRenamedCircuit : Circuit :=
  ⟨[UnitID.qubit "foo" 0], [],
   [⟨Op.PhasePolyBox exPPBoxT, [UnitID.qubit "foo" 0]⟩,
    ⟨Op.H, [UnitID.qubit "foo" 0]⟩,
    ⟨Op.PhasePolyBox exPPBoxT, [UnitID.qubit "foo" 0]⟩]⟩

/-- A circuit with one `Rz(1/4)` gate and no symbolic parameter. -/
def exCircRz : Circuit :=
  ⟨defaultQubits 1, [], [⟨Op.Rz (Param.num (mkRat 1 4)), [exQ0]⟩]⟩

/-- A circuit whose only command is a barrier spanning a qubit and a bit. -/
def exBarrierBitCircuit : Circuit :=
  ⟨[exQ0], [exB0], [⟨Op.Barrier, [exQ0, exB0]⟩]⟩

/-- A circuit with a gate, a qubit-only barrier and a measurement. -/
def exReverseCircuit : Circuit :=
  ⟨[exQ0], [exB0],
   [⟨Op.H, [exQ0]⟩, ⟨Op.Barrier, [exQ0]⟩, ⟨Op.Measure, [exQ0, exB0]⟩]⟩

/-- A single tensor `Z` on qubit 0, commuting with `exNewPauliC6`. -/
def exTensorsC6 : List QubitPauliTensor :=
  [⟨[(0, Pauli.Z)], 1⟩]

def exNewPauliC6 : QubitPauliTensor :=
  ⟨[(0, Pauli.Z)], 1⟩

/-- A single tensor `X` on qubit 1, commuting with `exNewPauliC6w`. -/
def exTensorsC6w : List QubitPauliTensor :=
  [⟨[(1, Pauli.X)], 2⟩]

def exNewPauliC6w : QubitPauliTensor :=
  ⟨[(1, Pauli.X)], 1⟩

/-! Theorems. -/

/-- Claim C5: the two revisions of `gadgetise_hadamards`, in
`gadgetisation.py` and in `main.py`, are extensionally equal: for every input
circuit they produce identical results (the Python texts are identical, so
the two translations agree definitionally). -/
theorem claim_C5_gadgetise_revisions_equal :
    ∀ circ : Circuit,
      gadgetisation.gadgetise_hadamards circ = main.gadgetise_hadamards circ :=
  fun _ => rfl

/-- Claim C6, counterexample: on the single tensor `Z⊗I…` with `new_pauli`
also `Z`, which commute, the `main.py` revision returns the tensor unchanged
while the `clifford.py` revision returns the empty list, so the two revisions
of `_get_updated_paulis` are not extensionally equal. -/
theorem claim_C6_counterexample :
    main._get_updated_paulis exTensorsC6 exNewPauliC6 ≠
      clifford._get_updated_paulis exTensorsC6 exNewPauliC6 := by
  decide

/-- Claim C6, amended: the two revisions of `_get_updated_paulis` are not
extensionally equal; on any list of tensors that all commute with
`new_pauli`, the `main.py` revision returns the input list unchanged while
the `clifford.py` revision returns the empty list, so on such lists the two
agree exactly when the list is empty. -/
theorem claim_C6_amended (ts : List QubitPauliTensor) (np : QubitPauliTensor)
    (h : ∀ t ∈ ts, t.commutes_with np = true) :
    main._get_updated_paulis ts np = ts ∧
      clifford._get_updated_paulis ts np = [] ∧
      (main._get_updated_paulis ts np = clifford._get_updated_paulis ts np ↔
        ts = []) := by
  have h1 : main._get_updated_paulis ts np = ts := by
    induction ts with
    | nil => rfl
    | cons a l ih =>
      have ha := h a (List.mem_cons_self a l)
      have hl := ih (fun t ht => h t (List.mem_cons_of_mem a ht))
      simp only [main._get_updated_paulis, List.map_cons] at hl ⊢
      rw [ha]
      simpa using hl
  have h2 : clifford._get_updated_paulis ts np = [] := by
    unfold clifford._get_updated_paulis
    have : ts.filter (fun pauli_op => !pauli_op.commutes_with np) = [] := by
      rw [List.filter_eq_nil_iff]
      intro t ht
      simp [h t ht]
    rw [this]
    rfl
  refine ⟨h1, h2, ?_⟩
  rw [h1, h2]

/-- Claim C6, witness: the amended statement at a concrete commuting
instance. -/
theorem claim_C6_witness :
    main._get_updated_paulis exTensorsC6w exNewPauliC6w = exTensorsC6w ∧
      clifford._get_updated_paulis exTensorsC6w exNewPauliC6w = [] := by
  have h := claim_C6_amended exTensorsC6w exNewPauliC6w (by decide)
  exact ⟨h.1, h.2.1⟩

/-- Claim C4: there is an input, a `PhasePolyBox` with a non-Clifford
phase-polynomial angle together with an input Pauli tensor, for which the
second circuit returned by `main._get_circuit_fragments` (the phase-gadget
circuit `s_prime_circ`, `new_s_circ` in the test) is not a Clifford
circuit. -/
theorem claim_C4_s_prime_not_clifford :
    ∃ (pb : PPBox) (p : QubitPauliTensor),
      (∃ pr ∈ pb.phase_polynomial, isHalfInteger pr.2 = false) ∧
        isCliffordCircuit (main._get_circuit_fragments pb p).2 = false :=
  ⟨exPPBoxT, exTensorZ0, by decide, by decide⟩

/-- Claim C1, counterexample: for the T-gate box `exPPBoxT2` (non-Clifford
phase `1/4` on the parity `Z⊗I`, identity linear part) and the Pauli tensor
`I⊗X` — a tensor on the box's qubits that commutes with the parity — the
circuit `synthesise_clifford` returns contains the phase gadget
`exp(-iπ/2·(-1/4)·Z⊗I)` and is not a Clifford circuit. -/
theorem claim_C1_counterexample :
    exTensorX1.string.map Prod.fst = List.range exPPBoxT2.n_qubits ∧
      isCliffordCircuit (clifford.synthesise_clifford exPPBoxT2 exTensorX1) =
        false := by
  decide

/-- Claim C2, counterexample: the gateset circuit `exCircHPP` has its
Hadamard before the first `PhasePolyBox`, so `get_n_internal_hadamards` is 0
while the replacement loop still consumes an ancilla for that Hadamard;
`z_ancillas[0]` of the empty register raises `IndexError` and
`gadgetise_hadamards` returns no circuit at all. -/
theorem claim_C2_counterexample :
    gadgetisation.HADAMARD_REPLACE_PREDICATE exCircHPP = true ∧
      gadgetisation.gadgetise_hadamards exCircHPP = none := by
  decide

/-- The counting fold of `_count_hadamards` never stops and counts every
Hadamard when the command list holds no `PhasePolyBox`. -/
lemma count_fold_no_ppb (cmds : List Command)
    (h : ∀ cmd ∈ cmds, cmd.op.optype ≠ OpTy.PhasePolyBox) (m : Nat) :
    cmds.foldl
      (fun acc cmd =>
        if acc.1 then acc
        else if cmd.op.optype == OpTy.H then (acc.1, acc.2 + 1)
        else if cmd.op.optype == OpTy.PhasePolyBox then (true, acc.2)
        else acc)
      (false, m)
      = (false, m + countH cmds) := by
  induction cmds generalizing m with
  | nil => simp [countH]
  | cons a l ih =>
    have ha := h a (List.mem_cons_self a l)
    have hl := fun t ht => h t (List.mem_cons_of_mem a ht)
    rw [List.foldl_cons]
    by_cases hH : a.op.optype = OpTy.H
    · have hbeq : (a.op.optype == OpTy.H) = true := by simp [hH]
      simp only [hbeq, Bool.false_eq_true, if_false, if_true]
      rw [ih hl (m + 1)]
      simp only [countH, List.filter_cons, hbeq, if_true, List.length_cons]
      congr 1
      have := (List.filter (fun cmd => cmd.op.optype == OpTy.H) l).length
      omega
    · have hbeq : (a.op.optype == OpTy.H) = false := by simp [hH]
      have hbeq2 : (a.op.optype == OpTy.PhasePolyBox) = false := by simp [ha]
      simp only [hbeq, hbeq2, Bool.false_eq_true, if_false]
      rw [ih hl m]
      simp only [countH, List.filter_cons, hbeq, Bool.false_eq_true, if_false]

/-- On a command list without `PhasePolyBox`es, `_count_hadamards` returns the
total Hadamard count. -/
lemma count_hadamards_eq_countH (cmds : List Command)
    (h : ∀ cmd ∈ cmds, cmd.op.optype ≠ OpTy.PhasePolyBox) :
    gadgetisation._count_hadamards cmds = countH cmds := by
  unfold gadgetisation._count_hadamards
  rw [count_fold_no_ppb cmds h 0]
  simp

/-- Reversal preserves the Hadamard count. -/
lemma countH_reverse (cmds : List Command) :
    countH cmds.reverse = countH cmds := by
  simp [countH, List.filter_reverse]

/-- A circuit with no `PhasePolyBox` gates has no command of that type. -/
lemma no_ppb_of_count_zero (c : Circuit)
    (h : c.n_gates_of_type OpTy.PhasePolyBox = 0) :
    ∀ cmd ∈ c.cmds, cmd.op.optype ≠ OpTy.PhasePolyBox := by
  intro cmd hm heq
  unfold Circuit.n_gates_of_type at h
  rw [List.length_eq_zero] at h
  have hmem : cmd ∈ c.cmds.filter (fun cmd => cmd.op.optype == OpTy.PhasePolyBox) :=
    List.mem_filter.2 ⟨hm, by simp [heq]⟩
  rw [h] at hmem
  exact absurd hmem (List.not_mem_nil cmd)

/-- Claim C9: on a gateset circuit with `k ≥ 1` Hadamards and no
`PhasePolyBox`, both scans of `get_n_internal_hadamards` count all `k`
Hadamards before meeting a box, so the function returns the negative count
`-k`. -/
theorem claim_C9_no_box_negative_count (c : Circuit) (k : Nat)
    (hg : gadgetisation.HADAMARD_REPLACE_PREDICATE c = true)
    (hnp : c.n_gates_of_type OpTy.PhasePolyBox = 0)
    (hk : c.n_gates_of_type OpTy.H = k) (hk1 : 1 ≤ k) :
    gadgetisation.get_n_internal_hadamards c = .ok (-(k : Int)) := by
  have hp := no_ppb_of_count_zero c hnp
  have hpr : ∀ cmd ∈ c.cmds.reverse, cmd.op.optype ≠ OpTy.PhasePolyBox :=
    fun cmd hm => hp cmd (List.mem_reverse.1 hm)
  unfold gadgetisation.get_n_internal_hadamards
  rw [hg]
  simp only [Bool.not_true, Bool.false_eq_true, if_false]
  rw [count_hadamards_eq_countH _ hp, count_hadamards_eq_countH _ hpr,
    countH_reverse]
  have hco : c.n_gates_of_type OpTy.H = countH c.cmds := rfl
  rw [hco] at hk
  subst hk
  congr 1
  omega

/-- Claim C9, witness: the single-Hadamard circuit gives `-1`. -/
theorem claim_C9_witness :
    gadgetisation.get_n_internal_hadamards exCircH = .ok (-1) :=
  claim_C9_no_box_negative_count exCircH 1 (by decide) (by decide) (by decide)
    (by decide)

/-- Claim C8: `get_n_internal_hadamards` raises `ValueError` exactly when
some command's operation type is neither `OpType.H` nor
`OpType.PhasePolyBox`; on every circuit inside that gate set it returns
normally. -/
theorem claim_C8_gateset_error_iff (c : Circuit) :
    (∃ e, gadgetisation.get_n_internal_hadamards c = .error e) ↔
      ∃ cmd ∈ c.cmds,
        cmd.op.optype ≠ OpTy.H ∧ cmd.op.optype ≠ OpTy.PhasePolyBox := by
  unfold gadgetisation.get_n_internal_hadamards
  by_cases hg : gadgetisation.HADAMARD_REPLACE_PREDICATE c = true
  · rw [hg]
    simp only [Bool.not_true, Bool.false_eq_true, if_false]
    constructor
    · rintro ⟨e, he⟩
      exact absurd he (by simp)
    · rintro ⟨cmd, hm, h1, h2⟩
      unfold gadgetisation.HADAMARD_REPLACE_PREDICATE at hg
      rw [List.all_eq_true] at hg
      have := hg cmd hm
      simp [h1, h2] at this
  · have hg2 : gadgetisation.HADAMARD_REPLACE_PREDICATE c = false :=
      Bool.eq_false_iff.2 hg
    rw [hg2]
    simp only [Bool.not_false, if_true]
    constructor
    · intro _
      unfold gadgetisation.HADAMARD_REPLACE_PREDICATE at hg2
      rw [List.all_eq_false] at hg2
      obtain ⟨cmd, hm, hcmd⟩ := hg2
      refine ⟨cmd, hm, ?_, ?_⟩
      · intro h1
        simp [h1] at hcmd
      · intro h2
        simp [h2] at hcmd
    · intro _
      exact ⟨_, rfl⟩

/-- Claim C10, counterexample: on a circuit whose only command is a barrier
spanning a qubit and a classical bit, `reverse_circuit` re-adds the barrier
over its qubits only, so applying it twice loses the bit argument and does
not return the input circuit. -/
theorem claim_C10_counterexample :
    utils.reverse_circuit (utils.reverse_circuit exBarrierBitCircuit) ≠
      exBarrierBitCircuit := by
  decide

/-- The replay fold of `reverse_circuit` appends the image of each command
under `reverse_norm`. -/
lemma reverse_fold (cmds : List Command) (c : Circuit) :
    cmds.foldl
      (fun new_circ cmd =>
        if cmd.op.optype == OpTy.Barrier then new_circ.add_barrier cmd.qubits
        else new_circ.add_gate cmd.op cmd.args) c
      = ⟨c.qubits, c.bits, c.cmds ++ cmds.map reverse_norm⟩ := by
  induction cmds generalizing c with
  | nil => simp
  | cons a l ih =>
    rw [List.foldl_cons]
    by_cases hb : a.op.optype = OpTy.Barrier
    · have hbeq : (a.op.optype == OpTy.Barrier) = true := by simp [hb]
      simp only [hbeq, if_true]
      rw [ih]
      simp [Circuit.add_barrier, reverse_norm, hbeq]
    · have hbeq : (a.op.optype == OpTy.Barrier) = false := by simp [hb]
      simp only [hbeq, Bool.false_eq_true, if_false]
      rw [ih]
      simp [Circuit.add_gate, reverse_norm, hbeq]

/-- `reverse_circuit` keeps the registers and maps the reversed commands
through `reverse_norm`. -/
lemma reverse_circuit_eq (c : Circuit) :
    utils.reverse_circuit c =
      ⟨c.qubits, c.bits, c.cmds.reverse.map reverse_norm⟩ := by
  unfold utils.reverse_circuit utils.initialise_registers
  rw [reverse_fold]
  rfl

/-- An operation whose type is `Barrier` is the barrier operation. -/
lemma optype_barrier {op : Op} (h : op.optype = OpTy.Barrier) :
    op = Op.Barrier := by
  cases op <;> (try rfl) <;> simp [Op.optype] at h

/-- `reverse_norm` fixes any command whose barrier arguments are all
qubits. -/
lemma reverse_norm_fix (cmd : Command)
    (h : cmd.op.optype = OpTy.Barrier → cmd.args.all UnitID.isQubit = true) :
    reverse_norm (reverse_norm cmd) = cmd := by
  obtain ⟨op, args⟩ := cmd
  by_cases hb : op.optype = OpTy.Barrier
  · have hq : Command.qubits ⟨op, args⟩ = args := by
      unfold Command.qubits
      rw [List.filter_eq_self]
      intro a ha
      exact (List.all_eq_true.1 (h hb)) a ha
    have hop := optype_barrier hb
    have h1 : reverse_norm ⟨op, args⟩ = ⟨op, args⟩ := by
      unfold reverse_norm
      simp only [hb, beq_self_eq_true, if_true]
      rw [hq, hop]
    rw [h1, h1]
  · have hbeq : (op.optype == OpTy.Barrier) = false := by simp [hb]
    have h1 : reverse_norm ⟨op, args⟩ = ⟨op, args⟩ := by
      unfold reverse_norm
      rw [hbeq]
      simp
    rw [h1, h1]

/-- Claim C10, amended: `reverse_circuit` is an involution on every circuit
whose barriers span only qubits (a barrier over a classical bit loses that
bit); the registers and command sequence are restored exactly. -/
theorem claim_C10_amended (c : Circuit)
    (hb : ∀ cmd ∈ c.cmds, cmd.op.optype = OpTy.Barrier →
      cmd.args.all UnitID.isQubit = true) :
    utils.reverse_circuit (utils.reverse_circuit c) = c := by
  rw [reverse_circuit_eq, reverse_circuit_eq]
  have h1 : ((c.cmds.reverse.map reverse_norm).reverse).map reverse_norm
      = c.cmds.map (fun cmd => reverse_norm (reverse_norm cmd)) := by
    rw [← List.map_reverse, List.reverse_reverse, List.map_map]
    rfl
  have h2 : c.cmds.map (fun cmd => reverse_norm (reverse_norm cmd)) = c.cmds := by
    rw [List.map_congr_left (fun cmd hm => reverse_norm_fix cmd (hb cmd hm))]
    exact List.map_id c.cmds
  simp only [h1, h2]

/-- Claim C10, witness: the amended involution at a concrete circuit with a
gate, a qubit-only barrier and a measurement. -/
theorem claim_C10_witness :
    utils.reverse_circuit (utils.reverse_circuit exReverseCircuit) =
      exReverseCircuit :=
  claim_C10_amended exReverseCircuit (by decide)

/-- An operation drawn from `ops_of_type ty` has type `ty`. -/
lemma mem_ops_of_type {c : Circuit} {ty : OpTy} {op : Op}
    (h : op ∈ c.ops_of_type ty) : op.optype = ty := by
  unfold Circuit.ops_of_type at h
  obtain ⟨cmd, hcmd, rfl⟩ := List.mem_map.1 h
  have h2 := (List.mem_filter.1 hcmd).2
  simpa using h2

/-- An operation of type `Rz` is an `Rz` gate with some parameter. -/
lemma rz_shape {op : Op} (h : op.optype = OpTy.Rz) : ∃ p, op = Op.Rz p := by
  cases op <;> first
    | exact ⟨_, rfl⟩
    | simp [Op.optype] at h

/-- Under `NoSymbolsPredicate`, no symbolic `Rz` gate occurs in the
circuit. -/
lemma not_symb_mem_rz {c : Circuit} (hs : noSymbols c = true) (s : String) :
    Op.Rz (Param.symb s) ∉ c.ops_of_type OpTy.Rz := by
  intro hmem
  unfold Circuit.ops_of_type at hmem
  obtain ⟨cmd, hcmd, hop⟩ := List.mem_map.1 hmem
  have hc : cmd ∈ c.cmds := (List.mem_filter.1 hcmd).1
  have hall := List.all_eq_true.1 hs cmd hc
  rw [hop] at hall
  simp [Op.hasSymbol] at hall

/-- Claim C7: `check_rz_angles` raises `ValueError` exactly when the circuit
has a symbolic parameter or no `Rz` gate; otherwise it returns `False`
exactly when some non-Clifford `Rz` has `|angle| mod 2` outside
`{0.25, 0.75, 1.25, 1.75}` half-turns, and `True` otherwise. -/
theorem claim_C7_check_rz_angles (c : Circuit) :
    ((∃ e, utils.check_rz_angles c = .error e) ↔
      (noSymbols c = false ∨ c.n_gates_of_type OpTy.Rz = 0))
    ∧ (utils.check_rz_angles c = .ok false ↔
        (noSymbols c = true ∧ c.n_gates_of_type OpTy.Rz ≠ 0 ∧
          ∃ q : Rat, Op.Rz (Param.num q) ∈ c.ops_of_type OpTy.Rz ∧
            rz_is_clifford (Param.num q) = false ∧
            qmod2 |q| ∉ utils.allowed_non_clifford_angles))
    ∧ (utils.check_rz_angles c = .ok true ↔
        (noSymbols c = true ∧ c.n_gates_of_type OpTy.Rz ≠ 0 ∧
          ∀ q : Rat, Op.Rz (Param.num q) ∈ c.ops_of_type OpTy.Rz →
            (rz_is_clifford (Param.num q) = true ∨
              qmod2 |q| ∈ utils.allowed_non_clifford_angles))) := by
  by_cases hs : noSymbols c = true
  · by_cases hn : c.n_gates_of_type OpTy.Rz = 0
    · have hc : utils.check_rz_angles c =
          .error "Circuit does not contain any Rz gates." := by
        unfold utils.check_rz_angles
        rw [hs]
        simp [hn]
      refine ⟨?_, ?_, ?_⟩
      · simp [hc, hn]
      · simp [hc, hn]
      · simp [hc, hn]
    · have hbeq : (c.n_gates_of_type OpTy.Rz == 0) = false := by
        rw [beq_eq_false_iff_ne]
        exact hn
      have hc : utils.check_rz_angles c =
          .ok ((c.ops_of_type OpTy.Rz).all (fun op =>
            match op with
            | .Rz p => utils.rz_op_passes p
            | _ => true)) := by
        unfold utils.check_rz_angles
        rw [hs, hbeq]
        simp
      have hfalse : ((c.ops_of_type OpTy.Rz).all (fun op =>
            match op with
            | .Rz p => utils.rz_op_passes p
            | _ => true)) = false ↔
          ∃ q : Rat, Op.Rz (Param.num q) ∈ c.ops_of_type OpTy.Rz ∧
            rz_is_clifford (Param.num q) = false ∧
            qmod2 |q| ∉ utils.allowed_non_clifford_angles := by
        rw [← Bool.not_eq_true, List.all_eq_true]
        push_neg
        constructor
        · rintro ⟨op, hop, hfo⟩
          obtain ⟨p, rfl⟩ := rz_shape (mem_ops_of_type hop)
          match p with
          | .symb s => exact absurd hop (not_symb_mem_rz hs s)
          | .num q =>
            simp only [ne_eq, Bool.not_eq_true, utils.rz_op_passes,
              Bool.or_eq_false_iff, decide_eq_false_iff_not] at hfo
            exact ⟨q, hop, hfo.1, hfo.2⟩
        · rintro ⟨q, hq, h1, h2⟩
          refine ⟨Op.Rz (Param.num q), hq, ?_⟩
          simp only [ne_eq, Bool.not_eq_true, utils.rz_op_passes,
            Bool.or_eq_false_iff, decide_eq_false_iff_not]
          exact ⟨h1, h2⟩
      have htrue : ((c.ops_of_type OpTy.Rz).all (fun op =>
            match op with
            | .Rz p => utils.rz_op_passes p
            | _ => true)) = true ↔
          ∀ q : Rat, Op.Rz (Param.num q) ∈ c.ops_of_type OpTy.Rz →
            (rz_is_clifford (Param.num q) = true ∨
              qmod2 |q| ∈ utils.allowed_non_clifford_angles) := by
        rw [List.all_eq_true]
        constructor
        · intro hall q hq
          have := hall (Op.Rz (Param.num q)) hq
          simp only [utils.rz_op_passes, Bool.or_eq_true,
            decide_eq_true_eq] at this
          exact this
        · intro hall op hop
          obtain ⟨p, rfl⟩ := rz_shape (mem_ops_of_type hop)
          match p with
          | .symb s => exact absurd hop (not_symb_mem_rz hs s)
          | .num q =>
            have := hall q hop
            simp only [utils.rz_op_passes, Bool.or_eq_true,
              decide_eq_true_eq]
            exact this
      refine ⟨?_, ?_, ?_⟩
      · constructor
        · rintro ⟨e, he⟩
          rw [hc] at he
          exact absurd he (by simp)
        · rintro (h | h)
          · rw [hs] at h
            exact absurd h (by simp)
          · exact absurd h hn
      · rw [hc]
        simp only [Except.ok.injEq]
        rw [hfalse]
        simp [hs, hn]
      · rw [hc]
        simp only [Except.ok.injEq]
        rw [htrue]
        simp [hs, hn]
  · have hs2 : noSymbols c = false := Bool.eq_false_iff.2 hs
    have hc : utils.check_rz_angles c =
        .error "Circuit contains symbolic angles." := by
      unfold utils.check_rz_angles
      rw [hs2]
      simp
    refine ⟨?_, ?_, ?_⟩
    · simp [hc, hs2]
    · simp [hc, hs2]
    · simp [hc, hs2]

/-- Structure eta for circuits. -/
lemma circuit_eta (c : Circuit) : (⟨c.qubits, c.bits, c.cmds⟩ : Circuit) = c :=
  rfl

/-- Structure eta for commands. -/
lemma command_eta (a : Command) : (⟨a.op, a.args⟩ : Command) = a :=
  rfl

/-- Adding a gate does not change which units a circuit holds. -/
lemma contains_unit_add_gate (c : Circuit) (op : Op) (args : List UnitID)
    (u : UnitID) :
    (c.add_gate op args).contains_unit u = c.contains_unit u :=
  rfl

/-- The replacement fold of `gadgetise_hadamards` succeeds and produces the
claim-side replacement whenever the remaining Hadamards fit into the ancilla
register, every Hadamard command has a qubit, every command argument is a
default-register qubit `q[i]` with `i < n`, and the accumulated circuit holds
those default-register qubits. -/
lemma gadget_fold_spec (k n : Nat) (cmds : List Command) (c : Circuit)
    (j : Nat)
    (hle : j + countH cmds ≤ k)
    (hwf : ∀ cmd ∈ cmds, cmd.op.optype = OpTy.H → cmd.qubits ≠ [])
    (hargs : ∀ cmd ∈ cmds,
      cmd.args.all (fun u => (defaultQubits n).contains u) = true)
    (hsub : ∀ u : UnitID, (defaultQubits n).contains u = true →
      c.contains_unit u = true) :
    cmds.foldl
      (gadgetisation.gadget_step (regQubits "z_ancillas" k) (regBits "bits" k))
      (some (c, j))
      = some (⟨c.qubits, c.bits, c.cmds ++ replace_hadamards_spec j cmds⟩,
          j + countH cmds) := by
  induction cmds generalizing c j with
  | nil =>
    simp [replace_hadamards_spec, countH, circuit_eta]
  | cons a l ih =>
    have hwfl := fun t ht hh => hwf t (List.mem_cons_of_mem a ht) hh
    have hargsl := fun t ht => hargs t (List.mem_cons_of_mem a ht)
    have hargsa := hargs a (List.mem_cons_self a l)
    rw [List.foldl_cons]
    by_cases hH : a.op.optype = OpTy.H
    · have hbeq : (a.op.optype == OpTy.H) = true := by simp [hH]
      have hcount : countH (a :: l) = countH l + 1 := by
        simp [countH, List.filter_cons, hbeq]
      have hj : j < k := by
        rw [hcount] at hle
        omega
      have hq := hwf a (List.mem_cons_self a l) hH
      obtain ⟨q, qs, hqs⟩ := List.exists_cons_of_ne_nil hq
      have hget1 : (regQubits "z_ancillas" k)[j]? =
          some (UnitID.qubit "z_ancillas" j) := by
        simp [regQubits, List.getElem?_map, List.getElem?_range hj]
      have hget2 : (regBits "bits" k)[j]? = some (UnitID.bit "bits" j) := by
        simp [regBits, List.getElem?_map, List.getElem?_range hj]
      have hqin : (defaultQubits n).contains q = true := by
        have hqmem : q ∈ Command.qubits a := by
          rw [hqs]
          exact List.mem_cons_self q qs
        have hqargs : q ∈ a.args := List.mem_of_mem_filter hqmem
        exact List.all_eq_true.1 hargsa q hqargs
      have hcq : c.contains_unit q = true := hsub q hqin
      have hstep : gadgetisation.gadget_step (regQubits "z_ancillas" k)
          (regBits "bits" k) (some (c, j)) a
          = some ((((c.add_gate gadgetisation.FSWAP
              [q, UnitID.qubit "z_ancillas" j]).add_gate
              Op.Measure [UnitID.qubit "z_ancillas" j, UnitID.bit "bits" j]).add_gate
              (Op.Conditional Op.X 1 1) [UnitID.bit "bits" j, q]), j + 1) := by
        unfold gadgetisation.gadget_step
        simp only [bne, hbeq, Bool.not_true, Bool.false_eq_true, if_false,
          hqs, List.head?_cons, List.get?_eq_getElem?, hget1, hget2, hcq,
          if_true]
      rw [hstep]
      have hle2 : (j + 1) + countH l ≤ k := by
        rw [hcount] at hle
        omega
      rw [ih (((c.add_gate gadgetisation.FSWAP
          [q, UnitID.qubit "z_ancillas" j]).add_gate
          Op.Measure [UnitID.qubit "z_ancillas" j, UnitID.bit "bits" j]).add_gate
          (Op.Conditional Op.X 1 1) [UnitID.bit "bits" j, q]) (j + 1) hle2
          hwfl hargsl hsub, hcount]
      have harith : j + 1 + countH l = j + (countH l + 1) := by omega
      rw [harith]
      simp only [replace_hadamards_spec, hbeq, if_true, hqs, List.headD_cons,
        measurement_gadget, Circuit.add_gate]
      simp [List.append_assoc]
    · have hbeq : (a.op.optype == OpTy.H) = false := by simp [hH]
      have hcu : c.contains_units a.args = true := by
        unfold Circuit.contains_units
        rw [List.all_eq_true]
        intro u hu
        exact hsub u (List.all_eq_true.1 hargsa u hu)
      have hstep : gadgetisation.gadget_step (regQubits "z_ancillas" k)
          (regBits "bits" k) (some (c, j)) a
          = some (c.add_gate a.op a.args, j) := by
        unfold gadgetisation.gadget_step
        simp only [bne, hbeq, Bool.not_false, if_true, hcu]
      rw [hstep]
      have hcount : countH (a :: l) = countH l := by
        simp [countH, List.filter_cons, hbeq]
      have hle2 : j + countH l ≤ k := by
        rw [hcount] at hle
        exact hle
      rw [ih (c.add_gate a.op a.args) j hle2 hwfl hargsl hsub, hcount]
      simp only [replace_hadamards_spec, hbeq, Bool.false_eq_true, if_false,
        Circuit.add_gate]
      simp [List.append_assoc, command_eta]

/-- With no Hadamard before the first box or after the last one,
`get_n_internal_hadamards` returns the total Hadamard count. -/
lemma get_n_internal_eq_countH (circ : Circuit)
    (hg : gadgetisation.HADAMARD_REPLACE_PREDICATE circ = true)
    (hl : gadgetisation._count_hadamards circ.cmds = 0)
    (hr : gadgetisation._count_hadamards circ.cmds.reverse = 0) :
    gadgetisation.get_n_internal_hadamards circ =
      .ok (countH circ.cmds) := by
  unfold gadgetisation.get_n_internal_hadamards
  rw [hg]
  simp only [Bool.not_true, Bool.false_eq_true, if_false]
  rw [hl, hr]
  have hco : circ.n_gates_of_type OpTy.H = countH circ.cmds := rfl
  rw [hco]
  simp

/-- The ancilla-preparation fold appends a Hadamard per ancilla. -/
lemma h_prep_fold (l : List UnitID) (c : Circuit) :
    l.foldl (fun c anc => c.add_gate Op.H [anc]) c =
      ⟨c.qubits, c.bits, c.cmds ++ l.map (fun a => ⟨Op.H, [a]⟩)⟩ := by
  induction l generalizing c with
  | nil => simp [circuit_eta]
  | cons a l ih =>
    rw [List.foldl_cons, ih]
    simp [Circuit.add_gate, List.append_assoc]

/-- On a gateset circuit whose Hadamards are all strictly internal and whose
command arguments are default-register qubits of the input's size,
`gadgetise_hadamards` succeeds and returns exactly the ancilla preamble
followed by the claim-side replacement of the input commands, over the input
qubit count extended by one fresh ancilla (and one fresh bit) per
Hadamard. -/
lemma gadgetise_spec (circ : Circuit)
    (hg : gadgetisation.HADAMARD_REPLACE_PREDICATE circ = true)
    (hl : gadgetisation._count_hadamards circ.cmds = 0)
    (hr : gadgetisation._count_hadamards circ.cmds.reverse = 0)
    (hwf : ∀ cmd ∈ circ.cmds, cmd.op.optype = OpTy.H → cmd.qubits ≠ [])
    (hargs : ∀ cmd ∈ circ.cmds, cmd.args.all
      (fun u => (defaultQubits circ.n_qubits).contains u) = true) :
    gadgetisation.gadgetise_hadamards circ =
      some ⟨defaultQubits circ.n_qubits ++
              regQubits "z_ancillas" (countH circ.cmds),
            regBits "bits" (countH circ.cmds),
            ancilla_preamble (countH circ.cmds) ++
              replace_hadamards_spec 0 circ.cmds⟩ := by
  unfold gadgetisation.gadgetise_hadamards
  rw [get_n_internal_eq_countH circ hg hl hr]
  have hneg : ¬((countH circ.cmds : Int) < 0) := by omega
  simp only [hneg, if_false, Int.toNat_natCast]
  unfold Circuit.add_q_register Circuit.add_c_register Circuit.init
  simp only []
  rw [h_prep_fold]
  simp only [Circuit.add_barrier]
  have hsub : ∀ u : UnitID,
      (defaultQubits circ.n_qubits).contains u = true →
      Circuit.contains_unit
        ⟨defaultQubits circ.n_qubits ++
            regQubits "z_ancillas" (countH circ.cmds),
          [] ++ regBits "bits" (countH circ.cmds),
          ([] ++ (regQubits "z_ancillas" (countH circ.cmds)).map
              (fun a => ⟨Op.H, [a]⟩)) ++
            [⟨Op.Barrier, regQubits "z_ancillas" (countH circ.cmds)⟩]⟩
        u = true := by
    intro u hu
    have hmem : u ∈ defaultQubits circ.n_qubits := by simpa using hu
    obtain ⟨i, _, rfl⟩ := List.mem_map.1 hmem
    unfold Circuit.contains_unit
    simp only [UnitID.isQubit, if_true]
    simp [List.mem_append]
    exact Or.inl (by simpa using hmem)
  rw [gadget_fold_spec (countH circ.cmds) circ.n_qubits circ.cmds _ 0
    (by omega) hwf hargs hsub]
  simp [ancilla_preamble, List.append_assoc]

/-- Conditional-X counting distributes over concatenation. -/
lemma countCondX_append (l1 l2 : List Command) :
    countCondX (l1 ++ l2) = countCondX l1 + countCondX l2 := by
  simp [countCondX, List.filter_append, List.map_append]

/-- A command that is not a conditional does not change the conditional-X
count. -/
lemma countCondX_cons_not (cmd : Command) (rest : List Command)
    (h : (cmd.op.optype == OpTy.Conditional) = false) :
    countCondX (cmd :: rest) = countCondX rest := by
  unfold countCondX
  rw [List.filter_cons]
  simp [h]

/-- The ancilla preamble holds no conditional gates. -/
lemma countCondX_preamble (k : Nat) :
    countCondX (ancilla_preamble k) = 0 := by
  unfold ancilla_preamble
  rw [countCondX_append]
  have h1 : countCondX ((regQubits "z_ancillas" k).map
      (fun a => ⟨Op.H, [a]⟩)) = 0 := by
    induction regQubits "z_ancillas" k with
    | nil => rfl
    | cons a l ih =>
      rw [List.map_cons, countCondX_cons_not _ _ (by rfl)]
      exact ih
  rw [h1, countCondX_cons_not _ _ (by rfl)]
  rfl

/-- Each measurement gadget holds exactly one conditional-X gate. -/
lemma countCondX_gadget (q : UnitID) (j : Nat) :
    countCondX (measurement_gadget q j) = 1 :=
  rfl

/-- On gateset commands, the claim-side replacement holds one conditional-X
gate per input Hadamard. -/
lemma countCondX_spec (cmds : List Command)
    (hg : ∀ cmd ∈ cmds,
      cmd.op.optype = OpTy.H ∨ cmd.op.optype = OpTy.PhasePolyBox) :
    ∀ j, countCondX (replace_hadamards_spec j cmds) = countH cmds := by
  induction cmds with
  | nil =>
    intro j
    rfl
  | cons a l ih =>
    intro j
    have ha := hg a (List.mem_cons_self a l)
    have hgl := fun t ht => hg t (List.mem_cons_of_mem a ht)
    by_cases hH : a.op.optype = OpTy.H
    · have hbeq : (a.op.optype == OpTy.H) = true := by simp [hH]
      simp only [replace_hadamards_spec, hbeq, if_true]
      rw [countCondX_append, ih hgl (j + 1), countCondX_gadget]
      simp [countH, List.filter_cons, hbeq]
      omega
    · have hbeq : (a.op.optype == OpTy.H) = false := by simp [hH]
      have hppb : a.op.optype = OpTy.PhasePolyBox := ha.resolve_left hH
      simp only [replace_hadamards_spec, hbeq, Bool.false_eq_true, if_false]
      rw [countCondX_cons_not _ _ (by simp [hppb]), ih hgl j]
      simp [countH, List.filter_cons, hbeq]

/-- Claim C2, amended: on every circuit in the `{H, PhasePolyBox}` gate set
whose Hadamards all lie strictly between the first and the last
`PhasePolyBox` — both boundary scans count zero — and whose command arguments
are default-register qubits of the input's size (each Hadamard listing its
qubit), `gadgetise_hadamards` returns the circuit that prefixes the ancilla
preamble and replaces every Hadamard of the input by its measurement gadget
on a fresh ancilla and fresh bit, keeping every non-Hadamard command
unchanged.  On gateset circuits with a Hadamard outside that region the
function raises (`claim_C2_counterexample`), as it does on inputs whose
qubits are not the rebuilt circuit's default register. -/
theorem claim_C2_amended (circ : Circuit)
    (hg : gadgetisation.HADAMARD_REPLACE_PREDICATE circ = true)
    (hl : gadgetisation._count_hadamards circ.cmds = 0)
    (hr : gadgetisation._count_hadamards circ.cmds.reverse = 0)
    (hwf : ∀ cmd ∈ circ.cmds, cmd.op.optype = OpTy.H → cmd.qubits ≠ [])
    (hargs : ∀ cmd ∈ circ.cmds, cmd.args.all
      (fun u => (defaultQubits circ.n_qubits).contains u) = true) :
    gadgetisation.gadgetise_hadamards circ =
      some ⟨defaultQubits circ.n_qubits ++
              regQubits "z_ancillas" (countH circ.cmds),
            regBits "bits" (countH circ.cmds),
            ancilla_preamble (countH circ.cmds) ++
              replace_hadamards_spec 0 circ.cmds⟩ :=
  gadgetise_spec circ hg hl hr hwf hargs

/-- Claim C2, witness: the amended statement at a concrete one-qubit circuit
with one internal Hadamard. -/
theorem claim_C2_witness :
    gadgetisation.gadgetise_hadamards exCircInternal =
      some ⟨defaultQubits exCircInternal.n_qubits ++
              regQubits "z_ancillas" (countH exCircInternal.cmds),
            regBits "bits" (countH exCircInternal.cmds),
            ancilla_preamble (countH exCircInternal.cmds) ++
              replace_hadamards_spec 0 exCircInternal.cmds⟩ :=
  claim_C2_amended exCircInternal (by decide) (by decide) (by decide)
    (by decide) (by decide)

/-- Claim C3, counterexample: a valid gateset circuit with one strictly
internal Hadamard whose qubit lives in register `foo` instead of the default
register: `gadgetise_hadamards` raises `CircuitInvalidity` when re-adding the
input's commands to the rebuilt default-register circuit, so no circuit with
the claimed counts is produced. -/
theorem claim_C3_counterexample :
    gadgetisation.HADAMARD_REPLACE_PREDICATE exRenamedCircuit = true ∧
      gadgetisation._count_hadamards exRenamedCircuit.cmds = 0 ∧
      gadgetisation._count_hadamards exRenamedCircuit.cmds.reverse = 0 ∧
      gadgetisation.gadgetise_hadamards exRenamedCircuit = none := by
  decide

/-- Claim C3, amended: on every gateset circuit whose Hadamards are all
strictly internal and whose command arguments are default-register qubits of
the input's size (each Hadamard listing its qubit), `gadgetise_hadamards`
produces a circuit whose qubit count is the input's plus the
internal-Hadamard count returned by `get_n_internal_hadamards`, and whose
conditional-X count (as counted by `get_n_conditional_paulis`) equals that
same internal count.  On inputs over other registers the function raises
instead of producing a circuit (`claim_C3_counterexample`). -/
theorem claim_C3_output_counts (circ : Circuit) (k : Int)
    (hk : gadgetisation.get_n_internal_hadamards circ = .ok k)
    (hl : gadgetisation._count_hadamards circ.cmds = 0)
    (hr : gadgetisation._count_hadamards circ.cmds.reverse = 0)
    (hwf : ∀ cmd ∈ circ.cmds, cmd.op.optype = OpTy.H → cmd.qubits ≠ [])
    (hargs : ∀ cmd ∈ circ.cmds, cmd.args.all
      (fun u => (defaultQubits circ.n_qubits).contains u) = true) :
    ∃ out, gadgetisation.gadgetise_hadamards circ = some out ∧
      (out.n_qubits : Int) = circ.n_qubits + k ∧
      (utils.get_n_conditional_paulis out : Int) = k := by
  have hg : gadgetisation.HADAMARD_REPLACE_PREDICATE circ = true := by
    by_contra hng
    have h2 : gadgetisation.HADAMARD_REPLACE_PREDICATE circ = false :=
      Bool.eq_false_iff.2 hng
    unfold gadgetisation.get_n_internal_hadamards at hk
    rw [h2] at hk
    simp at hk
  have hke : k = (countH circ.cmds : Int) := by
    rw [get_n_internal_eq_countH circ hg hl hr] at hk
    exact (Except.ok.inj hk).symm
  subst hke
  refine ⟨_, gadgetise_spec circ hg hl hr hwf hargs, ?_, ?_⟩
  · simp [Circuit.n_qubits, defaultQubits, regQubits]
  · have hgA : ∀ cmd ∈ circ.cmds,
        cmd.op.optype = OpTy.H ∨ cmd.op.optype = OpTy.PhasePolyBox := by
      intro cmd hm
      have h3 := List.all_eq_true.1 hg cmd hm
      simpa using h3
    have hcc : utils.get_n_conditional_paulis
          ⟨defaultQubits circ.n_qubits ++
              regQubits "z_ancillas" (countH circ.cmds),
            regBits "bits" (countH circ.cmds),
            ancilla_preamble (countH circ.cmds) ++
              replace_hadamards_spec 0 circ.cmds⟩ = countH circ.cmds := by
      show countCondX (ancilla_preamble (countH circ.cmds) ++
        replace_hadamards_spec 0 circ.cmds) = countH circ.cmds
      rw [countCondX_append, countCondX_preamble,
        countCondX_spec circ.cmds hgA 0]
      omega
    rw [hcc]

/-- Claim C3, witness: the theorem at a concrete two-qubit circuit with two
internal Hadamards. -/
theorem claim_C3_witness :
    ∃ out, gadgetisation.gadgetise_hadamards exCircInternal2 = some out ∧
      (out.n_qubits : Int) = exCircInternal2.n_qubits + 2 ∧
      (utils.get_n_conditional_paulis out : Int) = 2 :=
  claim_C3_output_counts exCircInternal2 2 (by rfl) (by decide) (by decide)
    (by decide) (by decide)

/-- The Pauli-circuit fold appends one single-qubit gate per stored tensor
entry. -/
lemma pauli_fold_cmds (l : List (Nat × Pauli)) (c : Circuit) :
    (l.foldl (fun pauli_circ qp =>
      pauli_circ.add_gate (clifford.PAULI_DICT qp.2)
        [UnitID.qubit "q" qp.1]) c).cmds
      = c.cmds ++ l.map (fun qp =>
          ⟨clifford.PAULI_DICT qp.2, [UnitID.qubit "q" qp.1]⟩) := by
  induction l generalizing c with
  | nil => simp
  | cons a l ih =>
    rw [List.foldl_cons, ih]
    simp [Circuit.add_gate, List.append_assoc]

/-- Every image of `PAULI_DICT` is a Clifford gate. -/
lemma pauli_dict_clifford (p : Pauli) :
    (clifford.PAULI_DICT p).is_clifford = true := by
  cases p <;> rfl

/-- The circuit of single-qubit Paulis built from a tensor is Clifford. -/
lemma pauli_tensor_circuit_clifford (t : QubitPauliTensor) :
    isCliffordCircuit (clifford.pauli_tensor_to_circuit t) = true := by
  unfold isCliffordCircuit clifford.pauli_tensor_to_circuit
  rw [pauli_fold_cmds, List.all_eq_true]
  intro cmd hm
  simp only [Circuit.init, List.nil_append] at hm
  obtain ⟨qp, _, rfl⟩ := List.mem_map.1 hm
  exact pauli_dict_clifford qp.2

/-- The decomposed phase-gadget circuit is Clifford when every coefficient is
a half-integer. -/
lemma phase_gadget_circuit_clifford (ts : List QubitPauliTensor)
    (h : ∀ t ∈ ts, isHalfInteger t.coeff = true) :
    isCliffordCircuit (clifford._get_phase_gadget_circuit ts) = true := by
  unfold clifford._get_phase_gadget_circuit pytket_model.decompose_boxes
    isCliffordCircuit
  simp only [Circuit.add_gate, Circuit.init, List.nil_append, List.map_cons,
    List.map_nil, List.flatten_cons, List.flatten_nil, List.append_nil]
  rw [List.all_eq_true]
  intro cmd hm
  obtain ⟨pr, hpr, rfl⟩ := List.mem_map.1 hm
  obtain ⟨t, ht, rfl⟩ := List.mem_map.1 hpr
  have := h t ht
  simp [Op.is_clifford, this]

/-- The rational negation keeps the denominator, so half-integrality. -/
lemma isHalfInteger_neg (q : Rat) : isHalfInteger (-q) = isHalfInteger q := by
  simp [isHalfInteger, Rat.neg_den]

/-- The sign flip of `clifford._get_updated_paulis` keeps coefficients
half-integral. -/
lemma updated_paulis_halfint (ts : List QubitPauliTensor)
    (np : QubitPauliTensor)
    (h : ∀ t ∈ ts, isHalfInteger t.coeff = true) :
    ∀ t ∈ clifford._get_updated_paulis ts np,
      isHalfInteger t.coeff = true := by
  intro t ht
  unfold clifford._get_updated_paulis at ht
  obtain ⟨s, hs, rfl⟩ := List.mem_map.1 ht
  have hs2 := (List.mem_filter.1 hs).1
  have hh := h s hs2
  have hneg : s.coeff * (-1) = -s.coeff := by ring
  show isHalfInteger (s.coeff * (-1)) = true
  rw [hneg, isHalfInteger_neg]
  exact hh

/-- The tensors read off a phase polynomial carry its phases. -/
lemma parities_coeff_halfint (pb : PPBox)
    (h : ∀ pr ∈ pb.phase_polynomial, isHalfInteger pr.2 = true) :
    ∀ t ∈ clifford._parities_to_pauli_tensors pb,
      isHalfInteger t.coeff = true := by
  intro t ht
  unfold clifford._parities_to_pauli_tensors at ht
  obtain ⟨pr, hpr, rfl⟩ := List.mem_map.1 ht
  exact h pr hpr

/-- Daggering negates the phases, keeping them half-integral. -/
lemma daggered_coeff_halfint (pb : PPBox)
    (h : ∀ pr ∈ pb.phase_polynomial, isHalfInteger pr.2 = true) :
    ∀ pr ∈ (clifford._get_daggered_phasepolybox pb).phase_polynomial,
      isHalfInteger pr.2 = true := by
  intro pr hpr
  unfold clifford._get_daggered_phasepolybox at hpr
  obtain ⟨pr0, hpr0, rfl⟩ := List.mem_map.1 hpr
  have := h pr0 hpr0
  show isHalfInteger (-pr0.2) = true
  rw [isHalfInteger_neg]
  exact this

/-- `add_circuit` is Clifford exactly when both halves are. -/
lemma clifford_append (c1 c2 : Circuit) :
    isCliffordCircuit (clifford.add_circuit c1 c2) =
      (isCliffordCircuit c1 && isCliffordCircuit c2) := by
  simp [clifford.add_circuit, isCliffordCircuit, List.all_append]

/-- Claim C1, amended: for every `PhasePolyBox` whose phase-polynomial angles
are all Clifford (half-integer multiples of a half-turn) and every Pauli
tensor on its qubits, `synthesise_clifford` returns a Clifford circuit: the
`P'` part is single-qubit Paulis and every phase gadget of the `Q` part
carries a half-integer angle.  For non-Clifford phases the result need not be
Clifford (`claim_C1_counterexample`). -/
theorem claim_C1_amended (pbox : PPBox) (input_pauli : QubitPauliTensor)
    (h : ∀ pr ∈ pbox.phase_polynomial, isHalfInteger pr.2 = true)
    (hq : input_pauli.string.map Prod.fst = List.range pbox.n_qubits) :
    isCliffordCircuit (clifford.synthesise_clifford pbox input_pauli) =
      true := by
  unfold clifford.synthesise_clifford
  rw [clifford_append, pauli_tensor_circuit_clifford]
  have hcoeffs : ∀ t ∈ clifford._get_updated_paulis
      (clifford._parities_to_pauli_tensors pbox)
      (clifford.get_pauli_conjugate pbox input_pauli) ++
      clifford._parities_to_pauli_tensors
        (clifford._get_daggered_phasepolybox pbox),
      isHalfInteger t.coeff = true := by
    intro t ht
    rcases List.mem_append.1 ht with h1 | h1
    · exact updated_paulis_halfint _ _ (parities_coeff_halfint pbox h) t h1
    · exact parities_coeff_halfint _ (daggered_coeff_halfint pbox h) t h1
  rw [phase_gadget_circuit_clifford _ hcoeffs]
  rfl

/-- Claim C1, witness: the amended statement at the Clifford S-gate box with
input Pauli `Z` on its qubit. -/
theorem claim_C1_witness :
    (∀ pr ∈ exPPBoxS.phase_polynomial, isHalfInteger pr.2 = true) ∧
      isCliffordCircuit (clifford.synthesise_clifford exPPBoxS exTensorZ0) =
        true :=
  ⟨by decide, claim_C1_amended exPPBoxS exTensorZ0 (by decide) (by decide)⟩

end topt_rewrites
